import Mathlib

/-!
Verification of the winroute route aggregation, filtering and batch-mutation
engine (route.go, the interface cache and the data types), over a shallow
embedding. The OS is modelled explicitly: the adapter snapshot and the raw
routing table are inputs, Go maps are association lists with overwrite
insertion, and the mutating operations additionally return the OS calls they
issued and the table they leave behind, so that "no OS call is made" and
"already-deleted routes stay deleted" are statable.
-/

set_option autoImplicit false

namespace Winroute

/-- A destination network, `netip.Prefix`: an address with a prefix length.
Addresses are abstracted to `Nat`; the engine only ever compares them. -/
structure IpPrefix where
  addr : Nat
  bits : Nat
deriving DecidableEq, Repr

/-- Interface (types.go): aggregated information about one network adapter. -/
structure Interface where
  Index : Nat
  LUID : Nat
  Alias : String
  Description : String
deriving DecidableEq, Repr

/-- One raw routing-table row as returned by the OS enumeration
(the fields of winipcfg's MibIPforwardRow2 that route.go reads). -/
structure RawRow where
  InterfaceLUID : Nat
  DestinationPrefix : IpPrefix
  NextHop : Nat
  Metric : Nat
  Protocol : Nat
  Origin : Nat
deriving DecidableEq, Repr

/-- Route (types.go): one enriched routing-table entry. -/
structure Route where
  Destination : IpPrefix
  NextHop : Nat
  Interface : Interface
  Metric : Nat
  Protocol : Nat
  Origin : Nat
deriving DecidableEq, Repr

/-- A Go map, as an association list whose keys are unique by construction:
insertion overwrites, lookup returns the stored value. -/
abbrev GoMap (α β : Type) := List (α × β)

/-- Lookup in a Go map. -/
def mapLookup {α β : Type} [DecidableEq α] (k : α) : GoMap α β → Option β
  | [] => none
  | (k', v) :: rest => if k' = k then some v else mapLookup k rest

/-- Insertion into a Go map: overwrites the value when the key is present. -/
def mapInsert {α β : Type} [DecidableEq α] (k : α) (v : β) : GoMap α β → GoMap α β
  | [] => [(k, v)]
  | (k', v') :: rest =>
    if k' = k then (k', v) :: rest else (k', v') :: mapInsert k v rest

/-- interfaceCache (helper file): the per-operation three-way directory. -/
structure InterfaceCache where
  byLUID : GoMap Nat Interface
  byIndex : GoMap Nat Interface
  byAlias : GoMap String Interface

/-- strings.ToLower (Go standard library), modelled character-wise over the
string's characters. -/
def toLowerStr (s : String) : String := ⟨s.data.map Char.toLower⟩

/-- The body of newInterfaceCache's loop for one adapter: register it under
its LUID and index (overwriting), and under its lowercased alias only when
that alias is not yet bound (first adapter wins). -/
def cacheInsertAdapter (cache : InterfaceCache) (adapter : Interface) : InterfaceCache :=
  { byLUID := mapInsert adapter.LUID adapter cache.byLUID
    byIndex := mapInsert adapter.Index adapter cache.byIndex
    byAlias :=
      match mapLookup (toLowerStr adapter.Alias) cache.byAlias with
      | some _ => cache.byAlias
      | none => mapInsert (toLowerStr adapter.Alias) adapter cache.byAlias }

/-- newInterfaceCache: build the directory from the adapter snapshot in
enumeration order. -/
def newInterfaceCache (adapters : List Interface) : InterfaceCache :=
  adapters.foldl cacheInsertAdapter { byLUID := [], byIndex := [], byAlias := [] }

/-- strconv.ParseUint(s, 10, 32): succeeds exactly on a nonempty string of
ASCII decimal digits whose value fits in 32 bits. -/
def parseUint32 (s : String) : Option Nat :=
  if s.data.isEmpty then none
  else if s.data.all (fun c => c.isDigit) then
    let n := s.data.foldl (fun acc c => acc * 10 + (c.toNat - 48)) 0
    if n < 2 ^ 32 then some n else none
  else none

/-- findInterface: try the identifier as a numeric index first; on parse
failure or a missing index entry fall back to the lowercased-alias map;
`none` is the ErrNotFound outcome. -/
def findInterface (c : InterfaceCache) (identifier : String) : Option Interface :=
  match (parseUint32 identifier).bind (fun index => mapLookup index c.byIndex) with
  | some iface => some iface
  | none =>
    match mapLookup (toLowerStr identifier) c.byAlias with
    | some iface => some iface
    | none => none

/-- FilterOption: a predicate over an enriched route. -/
abbrev FilterOption := Route → Bool

/-- The filter loop of GetRoutes: a route matches when every filter accepts it
(the Go loop breaks at the first rejection; that is conjunction). -/
def matchesAll (filters : List FilterOption) (r : Route) : Bool :=
  filters.all (fun f => f r)

/-- The enriched Route that GetRoutes builds from a raw row and the interface
its LUID resolved to. -/
def mkRoute (baseRoute : RawRow) (iface : Interface) : Route :=
  { Destination := baseRoute.DestinationPrefix
    NextHop := baseRoute.NextHop
    Interface := iface
    Metric := baseRoute.Metric
    Protocol := baseRoute.Protocol
    Origin := baseRoute.Origin }

/-- The aggregation loop of GetRoutes over the raw rows: skip a row whose
LUID is not in the directory, otherwise enrich it and keep it when every
filter accepts it. -/
def getRoutesLoop (cache : InterfaceCache) (filters : List FilterOption) :
    List RawRow → List Route
  | [] => []
  | baseRoute :: rest =>
    match mapLookup baseRoute.InterfaceLUID cache.byLUID with
    | none => getRoutesLoop cache filters rest
    | some iface =>
      let route := mkRoute baseRoute iface
      if matchesAll filters route then route :: getRoutesLoop cache filters rest
      else getRoutesLoop cache filters rest

/-- GetRoutes (route.go): build the directory from the adapter snapshot, then
aggregate and filter the raw routing table. -/
def GetRoutes (adapters : List Interface) (baseRoutes : List RawRow)
    (filters : List FilterOption) : List Route :=
  getRoutesLoop (newInterfaceCache adapters) filters baseRoutes

/-- Spec-side definition ("every resolvable row from the raw table"): the
enrichment of exactly those raw rows whose LUID resolves in the directory,
in enumeration order, with no filtering. -/
def resolvableRoutes (adapters : List Interface) (baseRoutes : List RawRow) :
    List Route :=
  baseRoutes.filterMap
    (fun b => (mapLookup b.InterfaceLUID (newInterfaceCache adapters).byLUID).map (mkRoute b))

/-- ErrorAction (route.go): the batch-delete error policy. The source makes
ErrorActionContinue the zero value and the default. -/
inductive ErrorAction
  | ErrorActionContinue
  | ErrorActionStop
deriving DecidableEq, Repr

/-- One element of DeleteRoutes' variadic `opts ...any` list: a FilterOption,
an ErrorAction, or a value of any other dynamic type (`otherOpt`, for which
the source's type switch takes its default branch). -/
inductive RouteOpt
  | filterOpt (f : FilterOption)
  | actionOpt (a : ErrorAction)
  | otherOpt

/-- extractRouteParameters' loop: filters are appended in list order, the
error action variable is overwritten by each ErrorAction seen, and any other
option type aborts with the unsupported-option error (`none`). -/
def extractLoop : List RouteOpt → List FilterOption → ErrorAction →
    Option (List FilterOption × ErrorAction)
  | [], filters, errorAction => some (filters, errorAction)
  | RouteOpt.filterOpt f :: rest, filters, errorAction =>
    extractLoop rest (filters ++ [f]) errorAction
  | RouteOpt.actionOpt a :: rest, filters, _ => extractLoop rest filters a
  | RouteOpt.otherOpt :: _, _, _ => none

/-- extractRouteParameters (route.go). -/
def extractRouteParameters (opts : List RouteOpt) :
    Option (List FilterOption × ErrorAction) :=
  extractLoop opts [] ErrorAction.ErrorActionContinue

/-- Spec-side: the FilterOption elements of an option list, in their
original order. -/
def filtersOf (opts : List RouteOpt) : List FilterOption :=
  opts.filterMap (fun o =>
    match o with
    | RouteOpt.filterOpt f => some f
    | _ => none)

/-- Spec-side: how one option updates the running error action — an
ErrorAction overwrites it, anything else leaves it. -/
def actionStep (acc : ErrorAction) (o : RouteOpt) : ErrorAction :=
  match o with
  | RouteOpt.actionOpt a => a
  | _ => acc

/-- Spec-side: the last ErrorAction in the option list, or the default
ErrorActionContinue when there is none. -/
def lastAction (opts : List RouteOpt) : ErrorAction :=
  opts.foldl actionStep ErrorAction.ErrorActionContinue

/-- An OS call issued by the mutation engine, for the call traces. -/
inductive OsCall
  | listAdapters
  | listRoutes
  | osDeleteRoute (luid : Nat) (destination : IpPrefix) (nextHop : Nat)
  | osAddRoute (luid : Nat) (destination : IpPrefix) (nextHop : Nat) (metric : Nat)
deriving DecidableEq, Repr

/-- The wrapped per-route deletion error: `failed to delete route (dest: %s,
iface: %s): %w` keeps the route's destination, its interface alias and the
underlying OS error (abstracted to a numeric code). -/
structure WrappedDeleteErr where
  dest : IpPrefix
  ifaceAlias : String
  cause : Nat
deriving DecidableEq, Repr

/-- The fatal (second) return value of DeleteRoutes, when non-nil. -/
inductive DeleteFatal
  | invalidOption
  | routeDeleteFailed (e : WrappedDeleteErr)
deriving DecidableEq, Repr

/-- The OS as DeleteRoutes sees it: the adapter snapshot, the routing table
snapshot, and the behaviour of the per-route OS delete — `deleteErr` returns
`some code` when deleting that (LUID, destination, next hop) key fails with
OS error `code`, and `none` when it succeeds. -/
structure OsEnv where
  adapters : List Interface
  table : List RawRow
  deleteErr : Nat → IpPrefix → Nat → Option Nat

/-- The effect of a successful OS route deletion on the table: the rows with
that exact (LUID, destination, next hop) key are removed. -/
def osDeleteRow (table : List RawRow) (luid : Nat) (dest : IpPrefix) (nextHop : Nat) :
    List RawRow :=
  table.filter (fun row =>
    !(row.InterfaceLUID == luid && row.DestinationPrefix == dest && row.NextHop == nextHop))

/-- What DeleteRoutes' deletion loop produces: the accumulated per-route
errors, the StopOnFirstError abort (if any), the table it leaves behind and
the delete calls it issued, in order. -/
structure LoopOut where
  accErrs : List WrappedDeleteErr
  stopErr : Option WrappedDeleteErr
  table : List RawRow
  calls : List OsCall
deriving DecidableEq, Repr

/-- DeleteRoutes' loop over the matched routes: each route gets one OS delete
attempt (`route.Delete()`); on failure the error is wrapped with the route's
destination and interface alias, and either returned at once
(ErrorActionStop) or accumulated (ErrorActionContinue). -/
def deleteLoop (deleteErr : Nat → IpPrefix → Nat → Option Nat)
    (errorAction : ErrorAction) :
    List Route → List RawRow → LoopOut
  | [], table => ⟨[], none, table, []⟩
  | route :: rest, table =>
    let call := OsCall.osDeleteRoute route.Interface.LUID route.Destination route.NextHop
    match deleteErr route.Interface.LUID route.Destination route.NextHop with
    | some code =>
      let wrappedErr : WrappedDeleteErr := ⟨route.Destination, route.Interface.Alias, code⟩
      match errorAction with
      | ErrorAction.ErrorActionStop => ⟨[], some wrappedErr, table, [call]⟩
      | ErrorAction.ErrorActionContinue =>
        let out := deleteLoop deleteErr errorAction rest table
        ⟨wrappedErr :: out.accErrs, out.stopErr, out.table, call :: out.calls⟩
    | none =>
      let out := deleteLoop deleteErr errorAction rest
        (osDeleteRow table route.Interface.LUID route.Destination route.NextHop)
      ⟨out.accErrs, out.stopErr, out.table, call :: out.calls⟩

/-- The full observable outcome of a DeleteRoutes run: the two return values
(accumulated errors and fatal error), the routing table afterwards, and the
OS calls issued. -/
structure BatchOutcome where
  accErrs : List WrappedDeleteErr
  fatal : Option DeleteFatal
  finalTable : List RawRow
  calls : List OsCall
deriving DecidableEq, Repr

/-- DeleteRoutes (route.go): parse the options (failing before any OS call on
an unsupported option), list the matching routes (building the directory and
enumerating the table), return at once when nothing matched, otherwise run
the deletion loop under the selected error policy. -/
def DeleteRoutes (env : OsEnv) (opts : List RouteOpt) : BatchOutcome :=
  match extractRouteParameters opts with
  | none => ⟨[], some DeleteFatal.invalidOption, env.table, []⟩
  | some (filters, errorAction) =>
    let listCalls := [OsCall.listAdapters, OsCall.listRoutes]
    let routes := GetRoutes env.adapters env.table filters
    if routes.isEmpty then ⟨[], none, env.table, listCalls⟩
    else
      let out := deleteLoop env.deleteErr errorAction routes env.table
      match out.stopErr with
      | some w => ⟨[], some (DeleteFatal.routeDeleteFailed w), out.table, listCalls ++ out.calls⟩
      | none => ⟨out.accErrs, none, out.table, listCalls ++ out.calls⟩

/-- The OS error classes AddRoute distinguishes. -/
inductive OsErr
  | errorObjectAlreadyExists
  | errorNotFound
  | otherErr (code : Nat)
deriving DecidableEq, Repr

/-- AddRoute's result, mirroring the source's error branches. -/
inductive AddRouteResult
  | ok
  | luidConversionFailed
  | routeAlreadyExists
  | routeCreateFailed
deriving DecidableEq, Repr

/-- AddRoute (route.go): convert the interface index to a LUID via the OS
(`lfi`, winipcfg.LUIDFromIndex — `none` when the index is unknown), failing
with the conversion error and issuing no further call when that fails; then
issue the single OS add-route call (`osAdd`), classifying an
ERROR_OBJECT_ALREADY_EXISTS outcome separately. Returns the result of the
call together with the add calls issued. -/
def AddRoute (lfi : Nat → Option Nat) (osAdd : Nat → IpPrefix → Nat → Nat → Option OsErr)
    (destination : IpPrefix) (nextHop : Nat) (ifaceIndex : Nat) (metric : Nat) :
    AddRouteResult × List OsCall :=
  match lfi ifaceIndex with
  | none => (AddRouteResult.luidConversionFailed, [])
  | some luid =>
    match osAdd luid destination nextHop metric with
    | some OsErr.errorObjectAlreadyExists =>
      (AddRouteResult.routeAlreadyExists, [OsCall.osAddRoute luid destination nextHop metric])
    | some _ =>
      (AddRouteResult.routeCreateFailed, [OsCall.osAddRoute luid destination nextHop metric])
    | none => (AddRouteResult.ok, [OsCall.osAddRoute luid destination nextHop metric])

/-- Whether the OS delete of this route's key succeeds in a given OS
behaviour: the loop's success test, as a predicate for takeWhile/dropWhile. -/
def okRoute (deleteErr : Nat → IpPrefix → Nat → Option Nat) (r : Route) : Bool :=
  (deleteErr r.Interface.LUID r.Destination r.NextHop).isNone

/-- The OS delete call the loop issues for one route. -/
def deleteCall (r : Route) : OsCall :=
  OsCall.osDeleteRoute r.Interface.LUID r.Destination r.NextHop

/-- The table after one successful per-route deletion. -/
def applyDelete (table : List RawRow) (r : Route) : List RawRow :=
  osDeleteRow table r.Interface.LUID r.Destination r.NextHop

/-- The wrapped error the loop builds for one failing route. -/
def wrapFail (deleteErr : Nat → IpPrefix → Nat → Option Nat) (r : Route) :
    WrappedDeleteErr :=
  ⟨r.Destination, r.Interface.Alias,
    (deleteErr r.Interface.LUID r.Destination r.NextHop).getD 0⟩

/-- Concrete adapter: index 4, LUID 100, alias "Ethernet". -/
def ifaceEth : Interface := ⟨4, 100, "Ethernet", "desc-a"⟩

/-- Concrete adapter: index 7, LUID 200, alias "Wi-Fi". -/
def ifaceWifi : Interface := ⟨7, 200, "Wi-Fi", "desc-b"⟩

/-- Concrete adapter whose alias collides with ifaceEth's after lowercasing. -/
def ifaceEthDup : Interface := ⟨9, 300, "ETHERNET", "desc-c"⟩

/-- Concrete adapter whose alias is the numeral string "7" while its index is 3. -/
def ifaceSeven : Interface := ⟨3, 400, "7", "desc-d"⟩

/-- Concrete raw row on ifaceEth's LUID. -/
def rowA : RawRow := ⟨100, ⟨10, 24⟩, 1, 5, 3, 1⟩

/-- Concrete raw row on ifaceWifi's LUID. -/
def rowB : RawRow := ⟨200, ⟨20, 16⟩, 2, 6, 3, 1⟩

/-- Concrete raw row whose LUID 999 matches no adapter. -/
def rowOrphan : RawRow := ⟨999, ⟨30, 8⟩, 3, 7, 3, 1⟩

/-- Concrete OS behaviour where every per-route delete succeeds. -/
def sampleEnv : OsEnv := ⟨[ifaceEth, ifaceWifi], [rowA, rowB], fun _ _ _ => none⟩

/-- Concrete OS behaviour where deletes on LUID 100 fail with code 5. -/
def failEnvA : OsEnv :=
  ⟨[ifaceEth, ifaceWifi], [rowA, rowB], fun luid _ _ => if luid = 100 then some 5 else none⟩

/-- Concrete OS behaviour where deletes on LUID 200 fail with code 9. -/
def failEnvB : OsEnv :=
  ⟨[ifaceEth, ifaceWifi], [rowA, rowB], fun luid _ _ => if luid = 200 then some 9 else none⟩

theorem mapLookup_insert {α β : Type} [DecidableEq α] (k k' : α) (v : β)
    (m : GoMap α β) :
    mapLookup k (mapInsert k' v m) = if k' = k then some v else mapLookup k m := by
  induction m with
  | nil => simp [mapInsert, mapLookup]
  | cons p rest ih =>
    obtain ⟨a, b⟩ := p
    by_cases hak : a = k'
    · subst hak
      by_cases hkk : a = k
      · subst hkk
        simp [mapInsert, mapLookup]
      · simp [mapInsert, mapLookup, hkk]
    · by_cases hk : a = k
      · subst hk
        have : ¬ k' = a := fun h => hak h.symm
        simp [mapInsert, mapLookup, hak, this]
      · simp [mapInsert, mapLookup, hak, hk, ih]

theorem extractLoop_of_other (opts : List RouteOpt) :
    ∀ (fs : List FilterOption) (a : ErrorAction), RouteOpt.otherOpt ∈ opts →
    extractLoop opts fs a = none := by
  induction opts with
  | nil => intro fs a h; simp at h
  | cons o rest ih =>
    intro fs a h
    cases o with
    | filterOpt f =>
      have hr : RouteOpt.otherOpt ∈ rest := by
        rcases List.mem_cons.mp h with h1 | h2
        · exact absurd h1 (by simp)
        · exact h2
      simpa [extractLoop] using ih (fs ++ [f]) a hr
    | actionOpt a' =>
      have hr : RouteOpt.otherOpt ∈ rest := by
        rcases List.mem_cons.mp h with h1 | h2
        · exact absurd h1 (by simp)
        · exact h2
      simpa [extractLoop] using ih fs a' hr
    | otherOpt => simp [extractLoop]

theorem extractLoop_no_other (opts : List RouteOpt) :
    ∀ (fs : List FilterOption) (a : ErrorAction), RouteOpt.otherOpt ∉ opts →
    extractLoop opts fs a = some (fs ++ filtersOf opts, opts.foldl actionStep a) := by
  induction opts with
  | nil => intro fs a _; simp [extractLoop, filtersOf]
  | cons o rest ih =>
    intro fs a h
    have hr : RouteOpt.otherOpt ∉ rest := fun hm => h (List.mem_cons_of_mem o hm)
    cases o with
    | filterOpt f =>
      simp only [extractLoop, List.foldl_cons]
      rw [ih (fs ++ [f]) a hr]
      simp [filtersOf, actionStep]
    | actionOpt a' =>
      simp only [extractLoop, List.foldl_cons]
      rw [ih fs a' hr]
      simp [filtersOf, actionStep]
    | otherOpt => exact absurd (List.mem_cons_self RouteOpt.otherOpt rest) h

theorem byAlias_foldl (adapters : List Interface) :
    ∀ (c : InterfaceCache) (la : String),
    mapLookup la (adapters.foldl cacheInsertAdapter c).byAlias =
      match mapLookup la c.byAlias with
      | some v => some v
      | none => adapters.find? (fun a => toLowerStr a.Alias == la) := by
  induction adapters with
  | nil =>
    intro c la
    cases h : mapLookup la c.byAlias <;> simp [h]
  | cons a rest ih =>
    intro c la
    rw [List.foldl_cons, ih]
    cases hA : mapLookup (toLowerStr a.Alias) c.byAlias with
    | some w =>
      have hby : (cacheInsertAdapter c a).byAlias = c.byAlias := by
        simp [cacheInsertAdapter, hA]
      rw [hby]
      cases hla : mapLookup la c.byAlias with
      | some v => rfl
      | none =>
        have hne : (toLowerStr a.Alias == la) = false := by
          by_cases he : toLowerStr a.Alias = la
          · rw [he] at hA; rw [hA] at hla; cases hla
          · simp [he]
        simp [List.find?_cons, hne]
    | none =>
      have hby : (cacheInsertAdapter c a).byAlias =
          mapInsert (toLowerStr a.Alias) a c.byAlias := by
        simp [cacheInsertAdapter, hA]
      rw [hby, mapLookup_insert]
      by_cases he : toLowerStr a.Alias = la
      · rw [if_pos he]
        rw [he] at hA
        rw [hA]
        have ht : (toLowerStr a.Alias == la) = true := by simp [he]
        simp [List.find?_cons, ht]
      · rw [if_neg he]
        have hne : (toLowerStr a.Alias == la) = false := by simp [he]
        cases hla : mapLookup la c.byAlias with
        | some v => rfl
        | none => simp [List.find?_cons, hne]

theorem byLUID_foldl_untouched (adapters : List Interface) :
    ∀ (c : InterfaceCache) (k : Nat), (∀ y ∈ adapters, y.LUID ≠ k) →
    mapLookup k (adapters.foldl cacheInsertAdapter c).byLUID = mapLookup k c.byLUID := by
  induction adapters with
  | nil => intro c k _; rfl
  | cons a rest ih =>
    intro c k h
    rw [List.foldl_cons, ih _ k (fun y hy => h y (List.mem_cons_of_mem a hy))]
    have hby : (cacheInsertAdapter c a).byLUID = mapInsert a.LUID a c.byLUID := rfl
    rw [hby, mapLookup_insert, if_neg (h a (List.mem_cons_self a rest))]

theorem byIndex_foldl_untouched (adapters : List Interface) :
    ∀ (c : InterfaceCache) (k : Nat), (∀ y ∈ adapters, y.Index ≠ k) →
    mapLookup k (adapters.foldl cacheInsertAdapter c).byIndex = mapLookup k c.byIndex := by
  induction adapters with
  | nil => intro c k _; rfl
  | cons a rest ih =>
    intro c k h
    rw [List.foldl_cons, ih _ k (fun y hy => h y (List.mem_cons_of_mem a hy))]
    have hby : (cacheInsertAdapter c a).byIndex = mapInsert a.Index a c.byIndex := rfl
    rw [hby, mapLookup_insert, if_neg (h a (List.mem_cons_self a rest))]

theorem byLUID_foldl_mem (adapters : List Interface) :
    ∀ (c : InterfaceCache) (a : Interface), a ∈ adapters →
    (∀ y ∈ adapters, y.LUID = a.LUID → y = a) →
    mapLookup a.LUID (adapters.foldl cacheInsertAdapter c).byLUID = some a := by
  induction adapters with
  | nil => intro c a h _; simp at h
  | cons b rest ih =>
    intro c a hmem hinj
    rw [List.foldl_cons]
    by_cases hr : a ∈ rest
    · exact ih _ a hr (fun y hy => hinj y (List.mem_cons_of_mem b hy))
    · have hab : a = b := by
        rcases List.mem_cons.mp hmem with h1 | h2
        · exact h1
        · exact absurd h2 hr
      subst hab
      have hnone : ∀ y ∈ rest, y.LUID ≠ a.LUID := by
        intro y hy hEq
        exact hr (hinj y (List.mem_cons_of_mem a hy) hEq ▸ hy)
      rw [byLUID_foldl_untouched rest _ a.LUID hnone]
      have hby : (cacheInsertAdapter c a).byLUID = mapInsert a.LUID a c.byLUID := rfl
      rw [hby, mapLookup_insert, if_pos rfl]

theorem byIndex_foldl_mem (adapters : List Interface) :
    ∀ (c : InterfaceCache) (a : Interface), a ∈ adapters →
    (∀ y ∈ adapters, y.Index = a.Index → y = a) →
    mapLookup a.Index (adapters.foldl cacheInsertAdapter c).byIndex = some a := by
  induction adapters with
  | nil => intro c a h _; simp at h
  | cons b rest ih =>
    intro c a hmem hinj
    rw [List.foldl_cons]
    by_cases hr : a ∈ rest
    · exact ih _ a hr (fun y hy => hinj y (List.mem_cons_of_mem b hy))
    · have hab : a = b := by
        rcases List.mem_cons.mp hmem with h1 | h2
        · exact h1
        · exact absurd h2 hr
      subst hab
      have hnone : ∀ y ∈ rest, y.Index ≠ a.Index := by
        intro y hy hEq
        exact hr (hinj y (List.mem_cons_of_mem a hy) hEq ▸ hy)
      rw [byIndex_foldl_untouched rest _ a.Index hnone]
      have hby : (cacheInsertAdapter c a).byIndex = mapInsert a.Index a c.byIndex := rfl
      rw [hby, mapLookup_insert, if_pos rfl]

theorem getRoutesLoop_eq (cache : InterfaceCache) (filters : List FilterOption) :
    ∀ rows : List RawRow,
    getRoutesLoop cache filters rows =
      (rows.filterMap
          (fun b => (mapLookup b.InterfaceLUID cache.byLUID).map (mkRoute b))).filter
        (matchesAll filters) := by
  intro rows
  induction rows with
  | nil => rfl
  | cons b rest ih =>
    cases h : mapLookup b.InterfaceLUID cache.byLUID with
    | none => simp [getRoutesLoop, h, List.filterMap_cons, ih]
    | some iface =>
      by_cases hm : matchesAll filters (mkRoute b iface) <;>
        simp [getRoutesLoop, h, List.filterMap_cons, List.filter_cons, hm, ih]

theorem getRoutes_eq_filter (adapters : List Interface) (rows : List RawRow)
    (filters : List FilterOption) :
    GetRoutes adapters rows filters =
      (resolvableRoutes adapters rows).filter (matchesAll filters) :=
  getRoutesLoop_eq (newInterfaceCache adapters) filters rows

theorem deleteLoop_continue_spec (deleteErr : Nat → IpPrefix → Nat → Option Nat) :
    ∀ (routes : List Route) (table : List RawRow),
    (deleteLoop deleteErr ErrorAction.ErrorActionContinue routes table).stopErr = none ∧
    (deleteLoop deleteErr ErrorAction.ErrorActionContinue routes table).accErrs =
      (routes.filter
          (fun r => (deleteErr r.Interface.LUID r.Destination r.NextHop).isSome)).map
        (wrapFail deleteErr) := by
  intro routes
  induction routes with
  | nil => intro table; exact ⟨rfl, rfl⟩
  | cons q rest ih =>
    intro table
    cases hd : deleteErr q.Interface.LUID q.Destination q.NextHop with
    | some code =>
      have hfail : (deleteErr q.Interface.LUID q.Destination q.NextHop).isSome = true := by
        rw [hd]; rfl
      refine ⟨by simpa [deleteLoop, hd] using (ih table).1, ?_⟩
      simp [deleteLoop, hd, List.filter_cons, hfail, wrapFail, (ih table).2]
    | none =>
      have hfail : (deleteErr q.Interface.LUID q.Destination q.NextHop).isSome = false := by
        rw [hd]; rfl
      constructor
      · simpa [deleteLoop, hd] using
          (ih (osDeleteRow table q.Interface.LUID q.Destination q.NextHop)).1
      · simp only [deleteLoop, hd, List.filter_cons, hfail]
        simpa using (ih (osDeleteRow table q.Interface.LUID q.Destination q.NextHop)).2

theorem deleteLoop_stop_spec (deleteErr : Nat → IpPrefix → Nat → Option Nat) :
    ∀ (routes : List Route) (table : List RawRow) (r : Route) (post : List Route),
    routes.dropWhile (okRoute deleteErr) = r :: post →
    deleteLoop deleteErr ErrorAction.ErrorActionStop routes table =
      ⟨[], some (wrapFail deleteErr r),
        (routes.takeWhile (okRoute deleteErr)).foldl applyDelete table,
        ((routes.takeWhile (okRoute deleteErr)) ++ [r]).map deleteCall⟩ := by
  intro routes
  induction routes with
  | nil => intro table r post h; simp [List.dropWhile] at h
  | cons q rest ih =>
    intro table r post h
    cases hd : deleteErr q.Interface.LUID q.Destination q.NextHop with
    | none =>
      have hok : okRoute deleteErr q = true := by simp [okRoute, hd]
      rw [List.dropWhile_cons_of_pos hok] at h
      rw [List.takeWhile_cons_of_pos hok]
      have := ih (osDeleteRow table q.Interface.LUID q.Destination q.NextHop) r post h
      simp only [deleteLoop, hd, this, List.foldl_cons, List.map_cons, List.cons_append]
      exact rfl
    | some code =>
      have hok : okRoute deleteErr q = false := by simp [okRoute, hd]
      rw [List.dropWhile_cons_of_neg (by simp [hok])] at h
      obtain ⟨hq, hpost⟩ := List.cons.injEq q rest r post ▸ h
      subst hq
      rw [List.takeWhile_cons_of_neg (by simp [hok])]
      have hw : wrapFail deleteErr q = ⟨q.Destination, q.Interface.Alias, code⟩ := by
        simp [wrapFail, hd]
      simp [deleteLoop, hd, hw, deleteCall]

/-- C1: for every adapter snapshot, raw routing table and filter list,
GetRoutes returns exactly the resolvable enriched routes that satisfy every
filter (their logical AND, via matchesAll), and with zero filters it returns
every resolvable row. -/
theorem getRoutes_conjunction_of_filters (adapters : List Interface)
    (rows : List RawRow) (filters : List FilterOption) :
    GetRoutes adapters rows filters =
      (resolvableRoutes adapters rows).filter (matchesAll filters)
    ∧ GetRoutes adapters rows [] = resolvableRoutes adapters rows := by
  refine ⟨getRoutes_eq_filter adapters rows filters, ?_⟩
  rw [getRoutes_eq_filter adapters rows []]
  simp [matchesAll]

/-- C4: a raw row whose LUID is absent from the directory is skipped — the
output over `b :: rows` equals the output over `rows` — and every emitted
Route is the enrichment of some input row whose LUID resolves in the
directory to exactly that Route's interface field. -/
theorem getRoutes_skips_unresolvable (adapters : List Interface) (b : RawRow)
    (rows : List RawRow) (filters : List FilterOption) :
    (mapLookup b.InterfaceLUID (newInterfaceCache adapters).byLUID = none →
      GetRoutes adapters (b :: rows) filters = GetRoutes adapters rows filters)
    ∧ (∀ r ∈ GetRoutes adapters rows filters,
        ∃ b' ∈ rows,
          mapLookup b'.InterfaceLUID (newInterfaceCache adapters).byLUID =
            some r.Interface ∧
          r = mkRoute b' r.Interface) := by
  constructor
  · intro h
    simp [GetRoutes, getRoutesLoop, h]
  · intro r hr
    rw [getRoutes_eq_filter] at hr
    have hr' := (List.mem_filter.mp hr).1
    unfold resolvableRoutes at hr'
    obtain ⟨b', hb', hsome⟩ := List.mem_filterMap.mp hr'
    cases hl : mapLookup b'.InterfaceLUID (newInterfaceCache adapters).byLUID with
    | none => rw [hl] at hsome; cases hsome
    | some iface =>
      rw [hl] at hsome
      have heq : mkRoute b' iface = r := by simpa using hsome
      subst heq
      exact ⟨b', hb', hl, rfl⟩

/-- C9: GetRoutes imposes no sort — its output is an order-preserving
subsequence (Sublist) of the enriched rows in OS enumeration order, and a
route is in the output exactly when it is a resolvable row that matches
every filter. -/
theorem getRoutes_enumeration_order (adapters : List Interface)
    (rows : List RawRow) (filters : List FilterOption) :
    (GetRoutes adapters rows filters).Sublist (resolvableRoutes adapters rows)
    ∧ ∀ r, r ∈ GetRoutes adapters rows filters ↔
        r ∈ resolvableRoutes adapters rows ∧ matchesAll filters r = true := by
  constructor
  · rw [getRoutes_eq_filter]
    exact List.filter_sublist _
  · intro r
    rw [getRoutes_eq_filter]
    exact List.mem_filter

/-- C6: findInterface resolves a numeric identifier through the index map
first; when parsing fails or the parsed index has no entry it equals the
case-insensitive alias lookup (so a numeral that misses every index can
still resolve as an alias, and `none` — ErrNotFound — results only when
both miss). -/
theorem findInterface_index_then_alias (c : InterfaceCache) (identifier : String) :
    (∀ n iface, parseUint32 identifier = some n →
        mapLookup n c.byIndex = some iface →
        findInterface c identifier = some iface)
    ∧ ((parseUint32 identifier = none ∨
        ∃ n, parseUint32 identifier = some n ∧ mapLookup n c.byIndex = none) →
        findInterface c identifier = mapLookup (toLowerStr identifier) c.byAlias) := by
  constructor
  · intro n iface hp hl
    simp [findInterface, hp, hl]
  · intro h
    have hbind :
        (parseUint32 identifier).bind (fun index => mapLookup index c.byIndex) = none := by
      rcases h with h | ⟨n, hp, hl⟩
      · simp [h]
      · simp [hp, hl]
    cases ha : mapLookup (toLowerStr identifier) c.byAlias with
    | some iface => simp [findInterface, hbind, ha]
    | none => simp [findInterface, hbind, ha]

/-- C7: the alias map binds a lowercased alias to the first adapter with that
alias in enumeration order (List.find?), while — the OS assigning adapters
pairwise distinct LUIDs and indexes — every adapter, later duplicates
included, stays reachable through the LUID and index maps. -/
theorem cache_alias_first_wins (adapters : List Interface) (la : String) :
    mapLookup la (newInterfaceCache adapters).byAlias =
      adapters.find? (fun a => toLowerStr a.Alias == la)
    ∧ ((∀ x ∈ adapters, ∀ y ∈ adapters, x.LUID = y.LUID → x = y) →
       (∀ x ∈ adapters, ∀ y ∈ adapters, x.Index = y.Index → x = y) →
       ∀ a ∈ adapters,
         mapLookup a.LUID (newInterfaceCache adapters).byLUID = some a ∧
         mapLookup a.Index (newInterfaceCache adapters).byIndex = some a) := by
  constructor
  · rw [newInterfaceCache, byAlias_foldl]
    rfl
  · intro hLuid hIdx a ha
    exact ⟨byLUID_foldl_mem adapters _ a ha (fun y hy hEq => hLuid y hy a ha hEq),
      byIndex_foldl_mem adapters _ a ha (fun y hy hEq => hIdx y hy a ha hEq)⟩

/-- C8: AddRoute resolves the interface index to a LUID first — an unknown
index fails with the conversion error and issues no OS add call — and after
a successful resolution it issues exactly one OS add-route call, keyed by
the resolved LUID. -/
theorem addRoute_resolves_index_first (lfi : Nat → Option Nat)
    (osAdd : Nat → IpPrefix → Nat → Nat → Option OsErr) (destination : IpPrefix)
    (nextHop : Nat) (ifaceIndex : Nat) (metric : Nat) :
    (lfi ifaceIndex = none →
      AddRoute lfi osAdd destination nextHop ifaceIndex metric =
        (AddRouteResult.luidConversionFailed, []))
    ∧ (∀ luid, lfi ifaceIndex = some luid →
      (AddRoute lfi osAdd destination nextHop ifaceIndex metric).2 =
        [OsCall.osAddRoute luid destination nextHop metric]) := by
  constructor
  · intro h
    simp [AddRoute, h]
  · intro luid h
    cases ha : osAdd luid destination nextHop metric with
    | none => simp [AddRoute, h, ha]
    | some e => cases e <;> simp [AddRoute, h, ha]

/-- C10: an option list free of unsupported values parses without error even
with several ErrorAction elements — the last one in list order becomes the
policy — and the FilterOption elements are kept in their original order. -/
theorem extract_duplicate_actions (opts : List RouteOpt) :
    RouteOpt.otherOpt ∉ opts →
    extractRouteParameters opts = some (filtersOf opts, lastAction opts) := by
  intro h
  rw [extractRouteParameters, extractLoop_no_other opts [] _ h]
  simp [lastAction]

/-- C5: an option list holding a value that is neither a FilterOption nor an
ErrorAction makes DeleteRoutes fail with the invalid-option error before any
OS call: no call is issued, nothing is accumulated and the routing table is
unchanged. -/
theorem deleteRoutes_invalid_option (env : OsEnv) (opts : List RouteOpt) :
    RouteOpt.otherOpt ∈ opts →
    DeleteRoutes env opts = ⟨[], some DeleteFatal.invalidOption, env.table, []⟩ := by
  intro h
  have hx : extractRouteParameters opts = none := extractLoop_of_other opts [] _ h
  simp [DeleteRoutes, hx]

/-- C2: under ErrorActionContinue the fatal error is nil — however many
per-route deletions fail — and the accumulated list has exactly one entry
per failing matched route, each wrapping that route's destination and
interface alias around the OS error. -/
theorem deleteRoutes_continue_accumulates (env : OsEnv) (opts : List RouteOpt)
    (filters : List FilterOption) :
    extractRouteParameters opts = some (filters, ErrorAction.ErrorActionContinue) →
    (DeleteRoutes env opts).fatal = none ∧
    (DeleteRoutes env opts).accErrs =
      ((GetRoutes env.adapters env.table filters).filter
          (fun r => (env.deleteErr r.Interface.LUID r.Destination r.NextHop).isSome)).map
        (wrapFail env.deleteErr) := by
  intro h
  cases hR : GetRoutes env.adapters env.table filters with
  | nil => simp [DeleteRoutes, h, hR]
  | cons q qs =>
    have hcont := deleteLoop_continue_spec env.deleteErr (q :: qs) env.table
    simp only [DeleteRoutes, h, hR, List.isEmpty_cons, Bool.false_eq_true, if_false]
    rw [hcont.1]
    exact ⟨rfl, hcont.2⟩

/-- C3: under ErrorActionStop the first failing per-route deletion aborts the
batch — the fatal result is that failure wrapped with the route's
destination and interface alias, the accumulated list is nil, the delete
calls issued are exactly those for the successful leading routes plus the
failing one (nothing after it is attempted), and the table keeps the leading
deletions applied. -/
theorem deleteRoutes_stop_aborts (env : OsEnv) (opts : List RouteOpt)
    (filters : List FilterOption) (r : Route) (post : List Route) :
    extractRouteParameters opts = some (filters, ErrorAction.ErrorActionStop) →
    (GetRoutes env.adapters env.table filters).dropWhile (okRoute env.deleteErr) =
      r :: post →
    DeleteRoutes env opts =
      ⟨[], some (DeleteFatal.routeDeleteFailed (wrapFail env.deleteErr r)),
        ((GetRoutes env.adapters env.table filters).takeWhile
            (okRoute env.deleteErr)).foldl applyDelete env.table,
        [OsCall.listAdapters, OsCall.listRoutes] ++
          (((GetRoutes env.adapters env.table filters).takeWhile
              (okRoute env.deleteErr)) ++ [r]).map deleteCall⟩ := by
  intro h hdrop
  cases hR : GetRoutes env.adapters env.table filters with
  | nil => rw [hR] at hdrop; simp at hdrop
  | cons q qs =>
    rw [hR] at hdrop
    have hstop := deleteLoop_stop_spec env.deleteErr (q :: qs) env.table r post hdrop
    simp only [DeleteRoutes, h, hR, List.isEmpty_cons, Bool.false_eq_true, if_false]
    rw [hstop]

/-- Witness for C1 at a concrete snapshot and a concrete metric filter. -/
theorem getRoutes_conjunction_of_filters_witness :
    GetRoutes [ifaceEth, ifaceWifi] [rowA, rowB] [fun r => r.Metric == 5] =
      (resolvableRoutes [ifaceEth, ifaceWifi] [rowA, rowB]).filter
        (matchesAll [fun r => r.Metric == 5])
    ∧ GetRoutes [ifaceEth, ifaceWifi] [rowA, rowB] [] =
        resolvableRoutes [ifaceEth, ifaceWifi] [rowA, rowB] :=
  getRoutes_conjunction_of_filters [ifaceEth, ifaceWifi] [rowA, rowB]
    [fun r => r.Metric == 5]

/-- Witness for C4: the orphan row (LUID 999, no such adapter) is skipped. -/
theorem getRoutes_skips_unresolvable_witness :
    GetRoutes [ifaceEth] [rowOrphan, rowA] [] = GetRoutes [ifaceEth] [rowA] [] :=
  (getRoutes_skips_unresolvable [ifaceEth] rowOrphan [rowA] []).1 (by decide)

/-- Witness for C9 at a concrete snapshot and filter list. -/
theorem getRoutes_enumeration_order_witness :
    (GetRoutes [ifaceEth, ifaceWifi] [rowA, rowB] [fun r => r.Metric == 6]).Sublist
      (resolvableRoutes [ifaceEth, ifaceWifi] [rowA, rowB])
    ∧ ∀ r, r ∈ GetRoutes [ifaceEth, ifaceWifi] [rowA, rowB] [fun r => r.Metric == 6] ↔
        r ∈ resolvableRoutes [ifaceEth, ifaceWifi] [rowA, rowB] ∧
        matchesAll [fun r => r.Metric == 6] r = true :=
  getRoutes_enumeration_order [ifaceEth, ifaceWifi] [rowA, rowB] [fun r => r.Metric == 6]

/-- Witness for C6: "7" parses as a number, index 7 is absent, and the lookup
still resolves through the alias map entry for the alias "7". -/
theorem findInterface_index_then_alias_witness :
    findInterface (newInterfaceCache [ifaceSeven]) "7" = some ifaceSeven := by
  have h := (findInterface_index_then_alias (newInterfaceCache [ifaceSeven]) "7").2
    (Or.inr ⟨7, by decide, by decide⟩)
  rw [h]
  decide

/-- Witness for C7: with two adapters sharing the lowercased alias
"ethernet", alias lookup returns the first while the second stays reachable
by LUID and index. -/
theorem cache_alias_first_wins_witness :
    mapLookup "ethernet" (newInterfaceCache [ifaceEth, ifaceEthDup]).byAlias =
      some ifaceEth ∧
    mapLookup ifaceEthDup.LUID (newInterfaceCache [ifaceEth, ifaceEthDup]).byLUID =
      some ifaceEthDup ∧
    mapLookup ifaceEthDup.Index (newInterfaceCache [ifaceEth, ifaceEthDup]).byIndex =
      some ifaceEthDup := by
  have h := cache_alias_first_wins [ifaceEth, ifaceEthDup] "ethernet"
  have h2 := h.2 (by decide) (by decide) ifaceEthDup (by decide)
  exact ⟨h.1.trans (by decide), h2.1, h2.2⟩

/-- Witness for C8 at concrete resolution oracles: an unknown index stops
before any add call, a known one issues exactly the one add call. -/
theorem addRoute_resolves_index_first_witness :
    AddRoute (fun _ => none) (fun _ _ _ _ => none) ⟨10, 24⟩ 1 5 0 =
      (AddRouteResult.luidConversionFailed, [])
    ∧ (AddRoute (fun i => some (i + 40)) (fun _ _ _ _ => none) ⟨10, 24⟩ 1 5 0).2 =
        [OsCall.osAddRoute 45 ⟨10, 24⟩ 1 0] :=
  ⟨(addRoute_resolves_index_first (fun _ => none) (fun _ _ _ _ => none)
      ⟨10, 24⟩ 1 5 0).1 rfl,
   (addRoute_resolves_index_first (fun i => some (i + 40)) (fun _ _ _ _ => none)
      ⟨10, 24⟩ 1 5 0).2 45 rfl⟩

/-- Witness for C10 on a list with two ErrorAction values around a filter. -/
theorem extract_duplicate_actions_witness :
    extractRouteParameters
        [RouteOpt.actionOpt ErrorAction.ErrorActionStop,
         RouteOpt.filterOpt (fun _ => true),
         RouteOpt.actionOpt ErrorAction.ErrorActionContinue] =
      some
        (filtersOf
          [RouteOpt.actionOpt ErrorAction.ErrorActionStop,
           RouteOpt.filterOpt (fun _ => true),
           RouteOpt.actionOpt ErrorAction.ErrorActionContinue],
         lastAction
          [RouteOpt.actionOpt ErrorAction.ErrorActionStop,
           RouteOpt.filterOpt (fun _ => true),
           RouteOpt.actionOpt ErrorAction.ErrorActionContinue]) :=
  extract_duplicate_actions
    [RouteOpt.actionOpt ErrorAction.ErrorActionStop,
     RouteOpt.filterOpt (fun _ => true),
     RouteOpt.actionOpt ErrorAction.ErrorActionContinue] (by simp)

/-- Witness for C5: one unsupported option element aborts with the
invalid-option error, no OS call and an unchanged table. -/
theorem deleteRoutes_invalid_option_witness :
    DeleteRoutes sampleEnv [RouteOpt.otherOpt] =
      ⟨[], some DeleteFatal.invalidOption, sampleEnv.table, []⟩ :=
  deleteRoutes_invalid_option sampleEnv [RouteOpt.otherOpt] (by simp)

/-- Witness for C2 in an environment where the delete of the first matched
route fails: fatal stays nil and exactly that failure is accumulated. -/
theorem deleteRoutes_continue_accumulates_witness :
    (DeleteRoutes failEnvA []).fatal = none ∧
    (DeleteRoutes failEnvA []).accErrs =
      ((GetRoutes failEnvA.adapters failEnvA.table []).filter
          (fun r => (failEnvA.deleteErr r.Interface.LUID r.Destination r.NextHop).isSome)).map
        (wrapFail failEnvA.deleteErr) :=
  deleteRoutes_continue_accumulates failEnvA [] [] rfl

/-- Witness for C3 in an environment where the second matched route fails
under ErrorActionStop. -/
theorem deleteRoutes_stop_aborts_witness :
    DeleteRoutes failEnvB [RouteOpt.actionOpt ErrorAction.ErrorActionStop] =
      ⟨[],
        some (DeleteFatal.routeDeleteFailed
          (wrapFail failEnvB.deleteErr (mkRoute rowB ifaceWifi))),
        ((GetRoutes failEnvB.adapters failEnvB.table []).takeWhile
            (okRoute failEnvB.deleteErr)).foldl applyDelete failEnvB.table,
        [OsCall.listAdapters, OsCall.listRoutes] ++
          (((GetRoutes failEnvB.adapters failEnvB.table []).takeWhile
              (okRoute failEnvB.deleteErr)) ++ [mkRoute rowB ifaceWifi]).map
            deleteCall⟩ :=
  deleteRoutes_stop_aborts failEnvB [RouteOpt.actionOpt ErrorAction.ErrorActionStop]
    [] (mkRoute rowB ifaceWifi) [] rfl (by decide)

end Winroute
